import Mathlib

/-!
Verification of the HIVE orchestrator core (github.com/tuanbt/hive).

This file gives a shallow embedding of the parts of the Go source that the
claims concern: the task data model and registry manager
(internal/task/types.go, the task manager file), the episodic agent driver
(internal/agent, post-v0.2.0 episodic-only version), the worker pool
(internal/worker/pool.go) and configuration loading (internal/config).

Go machine integers are modelled as `Int`; `time.Time` values are modelled
as `Nat` with `0` standing for the Go zero time (`time.Time{}`); fallible Go
functions returning `error` are modelled with `Except String` or an
`Option String` component; the registry file content is modelled as the
`List Task` that `saveAllLocked` would persist.
-/

namespace Hive

/-- Task status enumeration (internal/task/types.go). -/
inductive Status where
  | pending
  | in_progress
  | reviewing
  | completed
  | failed
deriving DecidableEq, Repr

/-- `Status.IsTerminal` from internal/task/types.go:
returns true if the status is `completed` or `failed`. -/
def Status.IsTerminal : Status → Bool
  | .completed => true
  | .failed => true
  | _ => false

/-- `Status.IsActive` from internal/task/types.go:
returns true if the status is `in_progress` or `reviewing`. -/
def Status.IsActive : Status → Bool
  | .in_progress => true
  | .reviewing => true
  | _ => false

/-- A structured log entry attached to a task (internal/task/types.go,
`LogEntry`); the free-form `Data any` field is not needed by any claim and
is modelled as a string. -/
structure LogEntry where
  time : Nat
  level : String
  phase : String
  message : String
  data : String
deriving DecidableEq, Repr

/-- The `Task` record (internal/task/types.go). Timestamps are `Nat`
(0 = Go zero time); `WorkerID`, `RetryCount` and `Priority` are Go ints. -/
structure Task where
  id : String
  title : String
  description : String
  role : String
  status : Status
  contextFiles : List String
  logs : List LogEntry
  createdAt : Nat
  updatedAt : Nat
  startedAt : Nat
  completedAt : Nat
  failReason : String
  workerID : Int
  retryCount : Int
  priority : Int
deriving DecidableEq, Repr

/-- `Task.MarkInProgress` (internal/task/types.go): transitions the task to
in_progress, stamps the worker id and sets StartedAt/UpdatedAt to now. -/
def Task.MarkInProgress (t : Task) (workerID : Int) (now : Nat) : Task :=
  { t with status := .in_progress, workerID := workerID, startedAt := now, updatedAt := now }

/-- `Task.ResetForRetry` (internal/task/types.go): resets the task to
pending, clearing WorkerID, RetryCount, FailReason, StartedAt and
CompletedAt, and stamps UpdatedAt. -/
def Task.ResetForRetry (t : Task) (now : Nat) : Task :=
  { t with status := .pending, workerID := 0, retryCount := 0, failReason := "",
           startedAt := 0, completedAt := 0, updatedAt := now }

/-- `task.NewTask` (internal/task/types.go): a fresh pending task. -/
def NewTask (id title description : String) (now : Nat) : Task :=
  { id := id, title := title, description := description, role := "",
    status := .pending, contextFiles := [], logs := [],
    createdAt := now, updatedAt := now, startedAt := 0, completedAt := 0,
    failReason := "", workerID := 0, retryCount := 0, priority := 0 }

namespace Manager

/-- `Manager.ClaimTask` (task manager file): walks the loaded task list for
the first task whose ID matches; errors if it is not pending or absent;
otherwise marks it in progress and saves the whole list. The result is the
saved list on success, or the error string. -/
def ClaimTask (now : Nat) (taskID : String) (workerID : Int) :
    List Task → Except String (List Task)
  | [] => .error ("task not found: " ++ taskID)
  | t :: ts =>
    if t.id = taskID then
      if t.status = Status.pending then
        .ok (t.MarkInProgress workerID now :: ts)
      else
        .error ("task " ++ taskID ++ " is no longer pending")
    else
      match ClaimTask now taskID workerID ts with
      | .ok ts' => .ok (t :: ts')
      | .error e => .error e

/-- The registry file content after a `ClaimTask` call: the saved list on
success; unchanged on error (the Go code returns before `saveAllLocked`). -/
def ClaimTaskStored (now : Nat) (taskID : String) (workerID : Int) (l : List Task) :
    List Task :=
  match ClaimTask now taskID workerID l with
  | .ok l' => l'
  | .error _ => l

/-- A sequence of `ClaimTask` calls on the same task id, each with its own
timestamp and worker id; returns the final stored list together with the
per-call success flags (true = the call returned nil error). -/
def claimSeq (taskID : String) : List (Nat × Int) → List Task → List Task × List Bool
  | [], l => (l, [])
  | (now, w) :: rest, l =>
    match ClaimTask now taskID w l with
    | .ok l' =>
      let r := claimSeq taskID rest l'
      (r.1, true :: r.2)
    | .error _ =>
      let r := claimSeq taskID rest l
      (r.1, false :: r.2)

/-- Loop body of `Manager.GetNextPending` (task manager file): scans the
list keeping the current best candidate, replacing it only when a pending
task with strictly greater priority is encountered. -/
def getNextPendingAux : Option Task → List Task → Option Task
  | best, [] => best
  | best, t :: ts =>
    if t.status = Status.pending then
      match best with
      | none => getNextPendingAux (some t) ts
      | some b =>
        if b.priority < t.priority then getNextPendingAux (some t) ts
        else getNextPendingAux (some b) ts
    else getNextPendingAux best ts

/-- `Manager.GetNextPending` (task manager file): returns a copy of the
pending task with the greatest priority (first encountered wins ties), or
none when no pending task exists. Performs no save. -/
def GetNextPending (l : List Task) : Option Task :=
  getNextPendingAux none l

/-- `Manager.UpdateStatus` (task manager file): finds the first task with
the given ID, sets its status and UpdatedAt, sets FailReason when the
reason is non-empty and CompletedAt when the new status is terminal, then
saves; errors with not-found when no task matches. -/
def UpdateStatus (now : Nat) (taskID : String) (status : Status) (reason : String) :
    List Task → Except String (List Task)
  | [] => .error ("task not found: " ++ taskID)
  | t :: ts =>
    if t.id = taskID then
      .ok ({ t with
              status := status,
              updatedAt := now,
              failReason := if reason = "" then t.failReason else reason,
              completedAt := if status.IsTerminal then now else t.completedAt } :: ts)
    else
      match UpdateStatus now taskID status reason ts with
      | .ok ts' => .ok (t :: ts')
      | .error e => .error e

/-- The registry file content after an `UpdateStatus` call: the saved list
on success; unchanged on error. -/
def UpdateStatusStored (now : Nat) (taskID : String) (status : Status) (reason : String)
    (l : List Task) : List Task :=
  match UpdateStatus now taskID status reason l with
  | .ok l' => l'
  | .error _ => l

/-- `Manager.RecoverInProgress` (task manager file): resets every task whose
status is active (in_progress or reviewing) via `ResetForRetry` and counts
them; the list is saved only when the count is positive, but when the count
is zero no task was modified, so the first component is the stored list in
both cases. -/
def RecoverInProgress (now : Nat) : List Task → List Task × Nat
  | [] => ([], 0)
  | t :: ts =>
    let r := RecoverInProgress now ts
    if t.status.IsActive then (t.ResetForRetry now :: r.1, r.2 + 1)
    else (t :: r.1, r.2)

end Manager

/-- Mirror of Go `strings.HasPrefix` on character lists. -/
def charsStartWith : List Char → List Char → Bool
  | _, [] => true
  | [], _ :: _ => false
  | a :: as, b :: bs => a == b && charsStartWith as bs

/-- Mirror of Go `strings.Contains` on character lists. -/
def charsContain : List Char → List Char → Bool
  | [], needle => needle.isEmpty
  | a :: as, needle => charsStartWith (a :: as) needle || charsContain as needle

/-- Mirror of Go `strings.Contains` on strings. -/
def strContains (hay needle : String) : Bool :=
  charsContain hay.toList needle.toList

/-- Git integration options (internal/config, `GitConfig`). -/
structure GitConfig where
  enabled : Bool
  baseBranch : String
  remote : String
  branchPrefixStr : String
  commitMessageFormat : String
  createPR : Bool
  prTitleFormat : String
deriving DecidableEq, Repr

/-- Prompt instruction options (internal/config, `InstructionConfig`);
the Go role map is modelled as an association list. -/
structure InstructionConfig where
  globalRules : List String
  roleInstructions : List (String × String)
deriving DecidableEq, Repr

/-- The orchestrator configuration (internal/config, `Config`). Numeric
fields are Go ints. -/
structure Config where
  agentCommand : List String
  agentMode : String
  numWorkers : Int
  responseTimeoutSeconds : Int
  maxTaskDurationSeconds : Int
  maxReviewCycles : Int
  maxRestartAttempts : Int
  restartCooldownSeconds : List Int
  completionMarker : String
  stopTokens : List String
  logDirectory : String
  logLevel : String
  recoverInProgressOnStartup : Bool
  tasksFile : String
  workDirectory : String
  gitIntegration : GitConfig
  instructions : InstructionConfig
deriving DecidableEq, Repr

/-- `config.DefaultConfig` (internal/config). -/
def DefaultConfig : Config :=
  { agentCommand := ["opencode", "run"],
    agentMode := "episodic",
    numWorkers := 1,
    responseTimeoutSeconds := 60,
    maxTaskDurationSeconds := 1800,
    maxReviewCycles := 3,
    maxRestartAttempts := 3,
    restartCooldownSeconds := [5, 15, 60],
    completionMarker := "### TASK_DONE ###",
    stopTokens := ["TASK_COMPLETED", "### TASK_DONE ###"],
    logDirectory := "./logs",
    logLevel := "info",
    recoverInProgressOnStartup := true,
    tasksFile := "tasks.json",
    workDirectory := ".",
    gitIntegration :=
      { enabled := false, baseBranch := "main", remote := "origin",
        branchPrefixStr := "agent/task-",
        commitMessageFormat := "feat: %s (Task %s)",
        createPR := false, prTitleFormat := "feat: %s" },
    instructions :=
      { globalRules :=
          ["You are a part of an autonomous agent swarm.",
           "Do not usage markdown formatting for file content unless strictly necessary.",
           "Be concise and technical."],
        roleInstructions := [] } }

/-- `Config.applyDefaults` (internal/config): fills in default values for
any fields that are zero/empty. -/
def Config.applyDefaults (c : Config) : Config :=
  let d := DefaultConfig
  { c with
    agentCommand := if c.agentCommand.isEmpty then d.agentCommand else c.agentCommand,
    numWorkers := if c.numWorkers ≤ 0 then d.numWorkers else c.numWorkers,
    responseTimeoutSeconds :=
      if c.responseTimeoutSeconds ≤ 0 then d.responseTimeoutSeconds
      else c.responseTimeoutSeconds,
    maxTaskDurationSeconds :=
      if c.maxTaskDurationSeconds ≤ 0 then d.maxTaskDurationSeconds
      else c.maxTaskDurationSeconds,
    maxReviewCycles := if c.maxReviewCycles ≤ 0 then d.maxReviewCycles else c.maxReviewCycles,
    maxRestartAttempts :=
      if c.maxRestartAttempts ≤ 0 then d.maxRestartAttempts else c.maxRestartAttempts,
    restartCooldownSeconds :=
      if c.restartCooldownSeconds.isEmpty then d.restartCooldownSeconds
      else c.restartCooldownSeconds,
    completionMarker :=
      if c.completionMarker = "" then d.completionMarker else c.completionMarker,
    stopTokens := if c.stopTokens.isEmpty then d.stopTokens else c.stopTokens,
    logDirectory := if c.logDirectory = "" then d.logDirectory else c.logDirectory,
    logLevel := if c.logLevel = "" then d.logLevel else c.logLevel,
    tasksFile := if c.tasksFile = "" then d.tasksFile else c.tasksFile,
    workDirectory := if c.workDirectory = "" then d.workDirectory else c.workDirectory }

/-- `Config.Validate` (internal/config): the sequence of range checks, in
source order; returns the first failing check's message. -/
def Config.Validate (c : Config) : Except String Unit :=
  if c.numWorkers < 1 then .error "num_workers must be at least 1"
  else if c.numWorkers > 10 then .error "num_workers should not exceed 10"
  else if c.responseTimeoutSeconds < 1 then .error "response_timeout_seconds must be at least 1"
  else if c.maxTaskDurationSeconds < 60 then .error "max_task_duration_seconds must be at least 60"
  else if c.maxReviewCycles < 1 then .error "max_review_cycles must be at least 1"
  else if c.maxRestartAttempts < 1 then .error "max_restart_attempts must be at least 1"
  else if c.agentCommand.isEmpty then .error "agent_command cannot be empty"
  else if c.logLevel = "debug" ∨ c.logLevel = "info" ∨ c.logLevel = "warn" ∨ c.logLevel = "error"
  then .ok ()
  else .error "invalid log_level"

/-- `config.Load` (internal/config) after the JSON parse succeeded: apply
defaults for zero values, then validate; the file-reading and JSON-decoding
steps are outside the claims. -/
def Config.Load (c : Config) : Except String Config :=
  let c' := c.applyDefaults
  match c'.Validate with
  | .ok _ => .ok c'
  | .error e => .error ("invalid configuration: " ++ e)

/-- The episodic driver's lifecycle booking state (internal/agent): the
`isRunning` flag and the restart counter. -/
structure DriverState where
  isRunning : Bool
  restartCount : Int
deriving DecidableEq, Repr

namespace Driver

/-- `Driver.Start` (internal/agent): errors when already running, otherwise
sets the running flag. -/
def Start (s : DriverState) : Except String DriverState :=
  if s.isRunning then .error "agent is already running"
  else .ok { s with isRunning := true }

/-- `Driver.Stop` (internal/agent): no-op when not running, otherwise
clears the running flag; always returns nil error. -/
def Stop (s : DriverState) : DriverState :=
  if s.isRunning then { s with isRunning := false } else s

/-- `Driver.Restart` (internal/agent): errors once the restart counter has
reached `max_restart_attempts`; otherwise picks a cooldown (5 seconds, or
the FIRST entry of `restart_cooldown_seconds` when non-empty), increments
the counter, calls `Stop`, sleeps the cooldown, and calls `Start`.
Returns (final state, seconds slept, error). -/
def Restart (cfg : Config) (s : DriverState) : DriverState × Int × Option String :=
  if cfg.maxRestartAttempts ≤ s.restartCount then
    (s, 0, some "max restart attempts exceeded")
  else
    let cooldown : Int :=
      match cfg.restartCooldownSeconds with
      | [] => 5
      | c :: _ => c
    let s₁ : DriverState := { s with restartCount := s.restartCount + 1 }
    let s₂ := Stop s₁
    match Start s₂ with
    | .ok s₃ => (s₃, cooldown, none)
    | .error e => (s₂, cooldown, some e)

/-- Outcome of `Driver.execute` (internal/agent): the returned text, the
success flag and the returned error. -/
structure ExecOutcome where
  text : String
  success : Bool
  err : Option String
deriving DecidableEq, Repr

/-- The wait/select phase of `Driver.execute` (internal/agent, episodic
driver): `output` is the `strings.Builder` declared empty before the
select. On context cancellation the process is killed and
`(output.String(), false, ctx.Err())` is returned — nothing was ever
written to `output` on this path. On child exit the captured
stdout+stderr buffers are concatenated, the completion marker and every
stop token are searched for in the concatenation, and success is marker
found or exit error nil; the returned error is nil. -/
def executeWait (cfg : Config) (stdoutBuf stderrBuf : String) (cancelled : Bool)
    (ctxErr : String) (exitErr : Option String) : ExecOutcome :=
  let output : String := ""
  if cancelled then
    { text := output, success := false, err := some ctxErr }
  else
    let finalOutput := stdoutBuf ++ stderrBuf
    let output := output ++ finalOutput
    let markerFound :=
      strContains finalOutput cfg.completionMarker
        || cfg.stopTokens.any (fun token => strContains finalOutput token)
    { text := output, success := markerFound || exitErr.isNone, err := none }

end Driver

/-- The worker pool's channel/flag state (internal/worker/pool.go):
the `started` flag and whether each of the two channels has been closed. -/
structure PoolState where
  started : Bool
  taskChanClosed : Bool
  resultChanClosed : Bool
deriving DecidableEq, Repr

namespace Pool

/-- `worker.NewPool` (internal/worker/pool.go): fresh pool, not started,
channels open. -/
def NewPool : PoolState := ⟨false, false, false⟩

/-- `Pool.Start` (internal/worker/pool.go): returns immediately when the
`started` flag is already set, otherwise sets it (and spawns the workers,
which have no effect on this state). -/
def Start (p : PoolState) : PoolState :=
  if p.started then p else { p with started := true }

/-- `Pool.Stop` (internal/worker/pool.go): returns immediately when the
pool was never started; otherwise closes the task channel (a Go runtime
panic, modelled as the error case, when it is already closed), waits for
the workers, and closes the result channel. The `started` flag is never
cleared. -/
def Stop (p : PoolState) : Except String PoolState :=
  if p.started = false then .ok p
  else if p.taskChanClosed then .error "close of closed channel"
  else .ok { p with taskChanClosed := true, resultChanClosed := true }

end Pool

/-- One registry mutation performed by the orchestrator
(internal/orchestrator): a dispatcher claim (always with worker id 0), a
status update with one of the statuses the orchestrator passes (pending on
revert, failed on git failure, and a result status of completed or
failed), or startup recovery. All run at a non-zero wall-clock time. -/
inductive OrchStep : List Task → List Task → Prop where
  | claimDispatch (now : Nat) (taskID : String) (l l' : List Task)
      (hnow : now ≠ 0)
      (h : Manager.ClaimTask now taskID 0 l = .ok l') :
      OrchStep l l'
  | updateStatusOp (now : Nat) (taskID reason : String) (st : Status) (l l' : List Task)
      (hst : st = .pending ∨ st = .completed ∨ st = .failed)
      (h : Manager.UpdateStatus now taskID st reason l = .ok l') :
      OrchStep l l'
  | recoverOp (now : Nat) (l : List Task) :
      OrchStep l (Manager.RecoverInProgress now l).1

/-- Registry states reachable through the orchestrator's operations. -/
inductive OrchReach : List Task → List Task → Prop where
  | refl (l : List Task) : OrchReach l l
  | tail {a b c : List Task} : OrchReach a b → OrchStep b c → OrchReach a c

/-- Every active (in_progress or reviewing) task has a set (non-zero)
started_at timestamp. -/
def ActiveStamped (l : List Task) : Prop :=
  ∀ t ∈ l, t.status.IsActive = true → t.startedAt ≠ 0

instance (l : List Task) : Decidable (ActiveStamped l) := by
  unfold ActiveStamped
  infer_instance

/-- A concrete configuration with a two-entry cooldown sequence. -/
def cfgCooldown37 : Config :=
  { DefaultConfig with maxRestartAttempts := 5, restartCooldownSeconds := [3, 7] }

/-- A concrete configuration with an empty cooldown sequence. -/
def cfgNoCooldown : Config :=
  { DefaultConfig with maxRestartAttempts := 2, restartCooldownSeconds := [] }

/-- A concrete configuration with no stop tokens. -/
def cfgNoTokens : Config :=
  { DefaultConfig with stopTokens := [] }

/-- A concrete configuration with a zero worker count and an unrecognized
log level. -/
def cfgBadLevel : Config :=
  { DefaultConfig with numWorkers := 0, logLevel := "verbose" }

/-- A concrete pending task. -/
def taskA : Task := NewTask "a" "A" "desc a" 1

/-- A concrete in-progress task with stamped worker fields. -/
def taskB : Task :=
  { NewTask "b" "B" "desc b" 2 with
      status := Status.in_progress, workerID := 2, startedAt := 3,
      retryCount := 1, failReason := "boom" }

/-- A concrete pending task with priority 5. -/
def taskP5 : Task := { NewTask "p5" "P5" "d" 1 with priority := 5 }

/-- A second concrete pending task with priority 5, stored after
`taskP5`. -/
def taskP5b : Task := { NewTask "p5b" "P5b" "d" 1 with priority := 5 }

/-! ### Theorems -/

theorem applyDefaults_numWorkers (c : Config) :
    c.applyDefaults.numWorkers = if c.numWorkers ≤ 0 then 1 else c.numWorkers := rfl

theorem applyDefaults_responseTimeout (c : Config) :
    c.applyDefaults.responseTimeoutSeconds =
      if c.responseTimeoutSeconds ≤ 0 then 60 else c.responseTimeoutSeconds := rfl

theorem applyDefaults_maxTaskDuration (c : Config) :
    c.applyDefaults.maxTaskDurationSeconds =
      if c.maxTaskDurationSeconds ≤ 0 then 1800 else c.maxTaskDurationSeconds := rfl

theorem applyDefaults_maxReviewCycles (c : Config) :
    c.applyDefaults.maxReviewCycles =
      if c.maxReviewCycles ≤ 0 then 3 else c.maxReviewCycles := rfl

theorem applyDefaults_maxRestartAttempts (c : Config) :
    c.applyDefaults.maxRestartAttempts =
      if c.maxRestartAttempts ≤ 0 then 3 else c.maxRestartAttempts := rfl

theorem applyDefaults_agentCommand (c : Config) :
    c.applyDefaults.agentCommand =
      if c.agentCommand.isEmpty then ["opencode", "run"] else c.agentCommand := rfl

theorem applyDefaults_logLevel (c : Config) :
    c.applyDefaults.logLevel = if c.logLevel = "" then "info" else c.logLevel := rfl

/-- C9: `Pool.Stop` is not idempotent. After `NewPool` + `Start`, a first
`Stop` succeeds, closing both channels but leaving the `started` flag set;
calling `Stop` again on the resulting state panics by closing the already
closed task channel. `Pool.Start`, by contrast, is idempotent via the same
flag. -/
theorem claim_C9 :
    Pool.Stop (Pool.Start Pool.NewPool) =
      Except.ok (⟨true, true, true⟩ : PoolState)
    ∧ Pool.Stop (⟨true, true, true⟩ : PoolState) =
      Except.error "close of closed channel"
    ∧ (∀ p : PoolState, Pool.Start (Pool.Start p) = Pool.Start p) := by
  refine ⟨rfl, rfl, ?_⟩
  intro p
  rcases p with ⟨s, tc, rc⟩
  cases s <;> rfl

/-- C4 counterexample: with `restart_cooldown_seconds = [3, 7]` and
`restart_count = 1 < max_restart_attempts = 5`, the code sleeps entry 0
(3 seconds), not the entry at index `k = 1` (7 seconds) that the claim
prescribes. -/
theorem claim_C4_cex :
    (Driver.Restart cfgCooldown37 ⟨false, 1⟩).2.1 = 3
    ∧ cfgCooldown37.restartCooldownSeconds[1]? = some 7
    ∧ ¬ ((Driver.Restart cfgCooldown37 ⟨false, 1⟩).2.1 = 7) := by
  refine ⟨rfl, rfl, ?_⟩
  decide

/-- C4 (amended): while the restart counter is below
`max_restart_attempts`, `Restart` increments the counter, sleeps the FIRST
entry of `restart_cooldown_seconds` (5 seconds when the sequence is empty)
regardless of the attempt number, performs stop and start, and returns the
running state with no error; once the counter has reached the cap it
returns an error without restarting or sleeping. -/
theorem claim_C4 (cfg : Config) (s : DriverState) :
    (s.restartCount < cfg.maxRestartAttempts →
      Driver.Restart cfg s =
        (⟨true, s.restartCount + 1⟩, cfg.restartCooldownSeconds.headD 5, none))
    ∧ (cfg.maxRestartAttempts ≤ s.restartCount →
      Driver.Restart cfg s = (s, 0, some "max restart attempts exceeded")) := by
  rcases s with ⟨run, cnt⟩
  constructor
  · intro hlt
    have hnot : ¬ cfg.maxRestartAttempts ≤ cnt := not_le.mpr hlt
    cases run <;>
      cases hc : cfg.restartCooldownSeconds <;>
        simp [Driver.Restart, Driver.Stop, Driver.Start, hnot, hc]
  · intro hle
    simp [Driver.Restart, hle]

theorem claim_C4_witness :
    (0 : Int) < 2
    ∧ Driver.Restart cfgNoCooldown ⟨true, 0⟩ = (⟨true, 1⟩, 5, none) :=
  ⟨by decide, (claim_C4 cfgNoCooldown ⟨true, 0⟩).1 (by decide)⟩

/-- C8 counterexample: the context is cancelled while the child has
already produced "hello" on stdout; the driver returns the empty string,
not the captured partial output, so the returned text is not "the output
captured so far". -/
theorem claim_C8_cex :
    (Driver.executeWait DefaultConfig "hello" "" true "context canceled" none).text = ""
    ∧ ¬ ((Driver.executeWait DefaultConfig "hello" "" true "context canceled" none).text
        = "hello") := by
  refine ⟨rfl, ?_⟩
  decide

/-- C8 (amended): when the context is cancelled before the child exits,
the driver kills the process and returns `("", false, cancelled_error)`:
the success flag is false and the error is the context's cancellation
error, but the returned text is always the empty string — any child
output buffered so far is discarded. -/
theorem claim_C8 (cfg : Config) (stdoutBuf stderrBuf ctxErr : String)
    (exitErr : Option String) :
    Driver.executeWait cfg stdoutBuf stderrBuf true ctxErr exitErr =
      { text := "", success := false, err := some ctxErr } := rfl

/-- C2: for a run in which the child exits (no cancellation), the success
flag is true iff the concatenated stdout+stderr output contains the
completion marker, or contains one of the stop tokens, or the exit error
is nil (exit code zero); the returned error is always nil and the text is
the concatenation; in particular a non-zero exit with no marker and no
stop token yields success=false with nil error. -/
theorem claim_C2 (cfg : Config) (stdoutBuf stderrBuf ctxErr : String)
    (exitErr : Option String) :
    ((Driver.executeWait cfg stdoutBuf stderrBuf false ctxErr exitErr).success = true ↔
      (strContains (stdoutBuf ++ stderrBuf) cfg.completionMarker = true
       ∨ (∃ token ∈ cfg.stopTokens, strContains (stdoutBuf ++ stderrBuf) token = true)
       ∨ exitErr = none))
    ∧ (Driver.executeWait cfg stdoutBuf stderrBuf false ctxErr exitErr).err = none
    ∧ (Driver.executeWait cfg stdoutBuf stderrBuf false ctxErr exitErr).text
        = stdoutBuf ++ stderrBuf
    ∧ (∀ e, exitErr = some e →
        strContains (stdoutBuf ++ stderrBuf) cfg.completionMarker = false →
        (∀ token ∈ cfg.stopTokens, strContains (stdoutBuf ++ stderrBuf) token = false) →
        (Driver.executeWait cfg stdoutBuf stderrBuf false ctxErr exitErr).success = false
        ∧ (Driver.executeWait cfg stdoutBuf stderrBuf false ctxErr exitErr).err = none) := by
  refine ⟨?_, rfl, rfl, ?_⟩
  · simp [Driver.executeWait, Bool.or_eq_true, List.any_eq_true,
      Option.isNone_iff_eq_none, or_assoc]
  · intro e he hm ht
    have hany : cfg.stopTokens.any
        (fun token => strContains (stdoutBuf ++ stderrBuf) token) = false := by
      rw [List.any_eq_false]
      intro x hx
      simp [ht x hx]
    constructor
    · simp [Driver.executeWait, hm, hany, he]
    · rfl

theorem claim_C2_witness :
    strContains ("no marker here" ++ "") cfgNoTokens.completionMarker = false
    ∧ (Driver.executeWait cfgNoTokens
        "no marker here" "" false "" (some "exit status 1")).success = false
    ∧ (Driver.executeWait cfgNoTokens
        "no marker here" "" false "" (some "exit status 1")).err = none := by
  refine ⟨by decide, ?_⟩
  exact (claim_C2 cfgNoTokens
    "no marker here" "" "" (some "exit status 1")).2.2.2 "exit status 1" rfl
    (by decide) (by intro token h; simp [cfgNoTokens, DefaultConfig] at h)

/-- C10: `Load` applies defaults before validation: each non-positive
numeric field and each empty string/sequence field is replaced by its
default rather than rejected, and a `Load` failure can only come from a
value that survives defaulting — num_workers above 10, a positive
max_task_duration_seconds below 60, or a non-empty unrecognized
log_level. -/
theorem claim_C10 (c : Config) :
    ((c.numWorkers ≤ 0 → c.applyDefaults.numWorkers = 1)
     ∧ (c.responseTimeoutSeconds ≤ 0 → c.applyDefaults.responseTimeoutSeconds = 60)
     ∧ (c.maxTaskDurationSeconds ≤ 0 → c.applyDefaults.maxTaskDurationSeconds = 1800)
     ∧ (c.maxReviewCycles ≤ 0 → c.applyDefaults.maxReviewCycles = 3)
     ∧ (c.maxRestartAttempts ≤ 0 → c.applyDefaults.maxRestartAttempts = 3)
     ∧ (c.agentCommand = [] → c.applyDefaults.agentCommand = ["opencode", "run"])
     ∧ (c.restartCooldownSeconds = [] →
        c.applyDefaults.restartCooldownSeconds = [5, 15, 60])
     ∧ (c.completionMarker = "" →
        c.applyDefaults.completionMarker = "### TASK_DONE ###")
     ∧ (c.stopTokens = [] →
        c.applyDefaults.stopTokens = ["TASK_COMPLETED", "### TASK_DONE ###"])
     ∧ (c.logDirectory = "" → c.applyDefaults.logDirectory = "./logs")
     ∧ (c.logLevel = "" → c.applyDefaults.logLevel = "info")
     ∧ (c.tasksFile = "" → c.applyDefaults.tasksFile = "tasks.json")
     ∧ (c.workDirectory = "" → c.applyDefaults.workDirectory = "."))
    ∧ (∀ e, Config.Load c = Except.error e →
        (10 < c.applyDefaults.numWorkers
         ∨ (0 < c.maxTaskDurationSeconds ∧ c.maxTaskDurationSeconds < 60)
         ∨ (c.logLevel ≠ "" ∧ c.logLevel ≠ "debug" ∧ c.logLevel ≠ "info"
            ∧ c.logLevel ≠ "warn" ∧ c.logLevel ≠ "error"))) := by
  constructor
  · refine ⟨?_, ?_, ?_, ?_, ?_, ?_, ?_, ?_, ?_, ?_, ?_, ?_, ?_⟩ <;>
      intro h <;> simp [Config.applyDefaults, DefaultConfig, h]
  · intro e h
    unfold Config.Load at h
    revert h
    cases hv : (c.applyDefaults).Validate with
    | ok u => simp [hv]
    | error msg =>
      intro _
      unfold Config.Validate at hv
      split_ifs at hv with h1 h2 h3 h4 h5 h6 h7 h8
      · exfalso
        rw [applyDefaults_numWorkers] at h1
        split_ifs at h1 <;> omega
      · exact Or.inl h2
      · exfalso
        rw [applyDefaults_responseTimeout] at h3
        split_ifs at h3 <;> omega
      · rw [applyDefaults_maxTaskDuration] at h4
        split_ifs at h4 with hd
        · omega
        · exact Or.inr (Or.inl ⟨by omega, h4⟩)
      · exfalso
        rw [applyDefaults_maxReviewCycles] at h5
        split_ifs at h5 <;> omega
      · exfalso
        rw [applyDefaults_maxRestartAttempts] at h6
        split_ifs at h6 <;> omega
      · exfalso
        rw [applyDefaults_agentCommand] at h7
        split_ifs at h7 with ha
        · simp at h7
        · exact ha h7
      · rw [applyDefaults_logLevel] at h8
        split_ifs at h8 with hll
        · exact absurd (Or.inr (Or.inl rfl)) h8
        · push_neg at h8
          exact Or.inr (Or.inr ⟨hll, h8.1, h8.2.1, h8.2.2.1, h8.2.2.2⟩)

theorem claim_C10_witness :
    (cfgBadLevel.numWorkers ≤ 0 ∧ cfgBadLevel.applyDefaults.numWorkers = 1)
    ∧ (10 < cfgBadLevel.applyDefaults.numWorkers
       ∨ (0 < cfgBadLevel.maxTaskDurationSeconds
          ∧ cfgBadLevel.maxTaskDurationSeconds < 60)
       ∨ (cfgBadLevel.logLevel ≠ "" ∧ cfgBadLevel.logLevel ≠ "debug"
          ∧ cfgBadLevel.logLevel ≠ "info" ∧ cfgBadLevel.logLevel ≠ "warn"
          ∧ cfgBadLevel.logLevel ≠ "error")) :=
  ⟨⟨by decide, (claim_C10 cfgBadLevel).1.1 (by decide)⟩,
   (claim_C10 cfgBadLevel).2 "invalid configuration: invalid log_level" rfl⟩

theorem recover_length (now : Nat) (l : List Task) :
    (Manager.RecoverInProgress now l).1.length = l.length := by
  induction l with
  | nil => rfl
  | cons t ts ih =>
    by_cases ha : t.status.IsActive = true <;>
      simp [Manager.RecoverInProgress, ha, ih]

theorem recover_get (now : Nat) (l : List Task) :
    ∀ (i : Nat) (t : Task), l[i]? = some t →
      (t.status.IsActive = true →
        (Manager.RecoverInProgress now l).1[i]? = some (t.ResetForRetry now))
      ∧ (t.status.IsActive = false →
        (Manager.RecoverInProgress now l).1[i]? = some t) := by
  induction l with
  | nil => intro i t h; simp at h
  | cons a ts ih =>
    intro i t h
    cases i with
    | zero =>
      rw [List.getElem?_cons_zero] at h
      injection h with h
      subst h
      by_cases ha : a.status.IsActive = true <;>
        simp [Manager.RecoverInProgress, ha]
    | succ j =>
      rw [List.getElem?_cons_succ] at h
      have := ih j t h
      by_cases ha : a.status.IsActive = true <;>
        simpa [Manager.RecoverInProgress, ha] using this

theorem recover_count (now : Nat) (l : List Task) :
    (Manager.RecoverInProgress now l).2 =
      (l.filter (fun t => t.status.IsActive)).length := by
  induction l with
  | nil => rfl
  | cons t ts ih =>
    by_cases ha : t.status.IsActive = true <;>
      simp [Manager.RecoverInProgress, List.filter_cons, ha, ih]

theorem recover_inactive (now : Nat) (l : List Task) :
    ∀ t ∈ (Manager.RecoverInProgress now l).1, t.status.IsActive = false := by
  induction l with
  | nil => intro t h; simp [Manager.RecoverInProgress] at h
  | cons a ts ih =>
    intro t h
    by_cases ha : a.status.IsActive = true
    · simp only [Manager.RecoverInProgress, ha, if_pos] at h
      rcases List.mem_cons.mp h with h | h
      · subst h; rfl
      · exact ih t h
    · simp only [Manager.RecoverInProgress, ha] at h
      rcases List.mem_cons.mp h with h | h
      · subst h
        cases hb : t.status.IsActive
        · rfl
        · exact absurd hb ha
      · exact ih t h

theorem recover_of_inactive (now : Nat) (l : List Task)
    (h : ∀ t ∈ l, t.status.IsActive = false) :
    Manager.RecoverInProgress now l = (l, 0) := by
  induction l with
  | nil => rfl
  | cons a ts ih =>
    have ha : a.status.IsActive = false := h a (List.mem_cons_self a ts)
    have hts : Manager.RecoverInProgress now ts = (ts, 0) :=
      ih (fun t ht => h t (List.mem_cons_of_mem a ht))
    simp [Manager.RecoverInProgress, ha, hts]

/-- C5: `RecoverInProgress` keeps the list length, resets every active
(in_progress or reviewing) task to pending with worker_id, retry_count,
fail_reason, started_at and completed_at cleared, leaves every other task
unchanged, returns the number of active tasks, and is idempotent: an
immediately repeated call resets nothing (returns 0) and leaves the
registry unchanged. -/
theorem claim_C5 (now : Nat) (l : List Task) :
    (Manager.RecoverInProgress now l).1.length = l.length
    ∧ (∀ (i : Nat) (t : Task), l[i]? = some t →
        (t.status.IsActive = true →
          (Manager.RecoverInProgress now l).1[i]? =
            some { t with status := Status.pending, workerID := 0, retryCount := 0,
                          failReason := "", startedAt := 0, completedAt := 0,
                          updatedAt := now })
        ∧ (t.status.IsActive = false →
          (Manager.RecoverInProgress now l).1[i]? = some t))
    ∧ (Manager.RecoverInProgress now l).2 =
        (l.filter (fun t => t.status.IsActive)).length
    ∧ (∀ now', Manager.RecoverInProgress now' (Manager.RecoverInProgress now l).1 =
        ((Manager.RecoverInProgress now l).1, 0)) := by
  refine ⟨recover_length now l, recover_get now l, recover_count now l, ?_⟩
  intro now'
  exact recover_of_inactive now' _ (recover_inactive now l)

theorem claim_C5_witness :
    [taskA, taskB][1]? = some taskB
    ∧ taskB.status.IsActive = true
    ∧ (Manager.RecoverInProgress 7 [taskA, taskB]).1[1]? =
        some { taskB with status := Status.pending, workerID := 0, retryCount := 0,
                          failReason := "", startedAt := 0, completedAt := 0,
                          updatedAt := 7 }
    ∧ Manager.RecoverInProgress 9 (Manager.RecoverInProgress 7 [taskA, taskB]).1 =
        ((Manager.RecoverInProgress 7 [taskA, taskB]).1, 0) :=
  ⟨rfl, rfl,
   ((claim_C5 7 [taskA, taskB]).2.1 1 taskB rfl).1 rfl,
   (claim_C5 7 [taskA, taskB]).2.2.2 9⟩

theorem updateStatus_not_found (now : Nat) (taskID : String) (st : Status)
    (reason : String) :
    ∀ l : List Task, (∀ t ∈ l, t.id ≠ taskID) →
      Manager.UpdateStatus now taskID st reason l =
        Except.error ("task not found: " ++ taskID) := by
  intro l
  induction l with
  | nil => intro _; rfl
  | cons a ts ih =>
    intro h
    have ha : ¬ a.id = taskID := h a (List.mem_cons_self a ts)
    have hts := ih (fun t ht => h t (List.mem_cons_of_mem a ht))
    simp [Manager.UpdateStatus, ha, hts]

theorem updateStatus_found (now : Nat) (taskID : String) (st : Status)
    (reason : String) :
    ∀ (l : List Task) (i : Nat) (h : i < l.length),
      (l.get ⟨i, h⟩).id = taskID →
      (∀ j, j < i → ∀ u : Task, l[j]? = some u → u.id ≠ taskID) →
      Manager.UpdateStatus now taskID st reason l =
        Except.ok (l.set i
          { l.get ⟨i, h⟩ with
              status := st,
              updatedAt := now,
              failReason := if reason = "" then (l.get ⟨i, h⟩).failReason else reason,
              completedAt := if st.IsTerminal then now else (l.get ⟨i, h⟩).completedAt }) := by
  intro l
  induction l with
  | nil => intro i h; simp at h
  | cons a ts ih =>
    intro i h hid hfirst
    cases i with
    | zero =>
      simp only [List.get] at hid
      simp [Manager.UpdateStatus, hid]
    | succ j =>
      have ha : ¬ a.id = taskID := by
        have := hfirst 0 (Nat.succ_pos j) a List.getElem?_cons_zero
        simpa using this
      have hts := ih j (Nat.lt_of_succ_lt_succ h) (by simpa using hid)
        (fun k hk u hu => hfirst (k + 1) (Nat.succ_lt_succ hk) u
          (by simpa using hu))
      simp [Manager.UpdateStatus, ha, hts, List.set]

theorem updateStatus_ok_struct (now : Nat) (taskID : String) (st : Status)
    (reason : String) :
    ∀ l l' : List Task, Manager.UpdateStatus now taskID st reason l = Except.ok l' →
      ∃ i, ∃ h : i < l.length,
        (l.get ⟨i, h⟩).id = taskID ∧
        l' = l.set i
          { l.get ⟨i, h⟩ with
              status := st,
              updatedAt := now,
              failReason := if reason = "" then (l.get ⟨i, h⟩).failReason else reason,
              completedAt := if st.IsTerminal then now else (l.get ⟨i, h⟩).completedAt } := by
  intro l
  induction l with
  | nil => intro l' h; simp [Manager.UpdateStatus] at h
  | cons a ts ih =>
    intro l' h
    by_cases ha : a.id = taskID
    · refine ⟨0, Nat.succ_pos ts.length, ha, ?_⟩
      simp only [Manager.UpdateStatus, ha, if_pos] at h
      injection h with h
      simp [← h, List.set, ha]
    · simp only [Manager.UpdateStatus, ha, if_neg, not_false_iff] at h
      cases hts : Manager.UpdateStatus now taskID st reason ts with
      | ok ts' =>
        rw [hts] at h
        injection h with h
        obtain ⟨i, hi, hid, hset⟩ := ih ts' hts
        exact ⟨i + 1, Nat.succ_lt_succ hi, hid, by simp [← h, hset, List.set]⟩
      | error e =>
        rw [hts] at h
        cases h

/-- C6: `UpdateStatus` modifies only the addressed task, and of that task
only its status and updated_at, plus fail_reason when the reason is
non-empty and completed_at when the new status is terminal; every other
field and every other task are unchanged; when no stored task has the id it
returns a not-found error and the stored list is unchanged. -/
theorem claim_C6 (now : Nat) (taskID reason : String) (st : Status) (l : List Task) :
    ((∀ t ∈ l, t.id ≠ taskID) →
      Manager.UpdateStatus now taskID st reason l =
        Except.error ("task not found: " ++ taskID)
      ∧ Manager.UpdateStatusStored now taskID st reason l = l)
    ∧ (∀ (i : Nat) (h : i < l.length), (l.get ⟨i, h⟩).id = taskID →
        (∀ j, j < i → ∀ u : Task, l[j]? = some u → u.id ≠ taskID) →
        Manager.UpdateStatus now taskID st reason l =
          Except.ok (l.set i
            { l.get ⟨i, h⟩ with
                status := st,
                updatedAt := now,
                failReason := if reason = "" then (l.get ⟨i, h⟩).failReason else reason,
                completedAt := if st.IsTerminal then now
                  else (l.get ⟨i, h⟩).completedAt })) := by
  constructor
  · intro h
    have he := updateStatus_not_found now taskID st reason l h
    exact ⟨he, by simp [Manager.UpdateStatusStored, he]⟩
  · intro i h hid hfirst
    exact updateStatus_found now taskID st reason l i h hid hfirst

theorem claim_C6_witness :
    ([taskA, taskB].get ⟨1, by decide⟩).id = "b"
    ∧ Manager.UpdateStatus 9 "b" Status.completed "went fine" [taskA, taskB] =
        Except.ok [taskA,
          { taskB with status := Status.completed, updatedAt := 9,
                       failReason := "went fine", completedAt := 9 }]
    ∧ Manager.UpdateStatusStored 9 "zzz" Status.failed "" [taskA, taskB] =
        [taskA, taskB] := by
  refine ⟨rfl, ?_, ?_⟩
  · have h := (claim_C6 9 "b" "went fine" Status.completed [taskA, taskB]).2 1
      (by decide) rfl ?pfx
    case pfx =>
      intro j hj u hu
      have hj0 : j = 0 := by omega
      subst hj0
      rw [List.getElem?_cons_zero] at hu
      injection hu with hu
      subst hu
      decide
    simpa using h
  · exact ((claim_C6 9 "zzz" "" Status.failed [taskA, taskB]).1 (by decide)).2

theorem getNextPendingAux_none_iff (l : List Task) :
    ∀ best : Option Task,
      Manager.getNextPendingAux best l = none ↔
        best = none ∧ ∀ t ∈ l, ¬ t.status = Status.pending := by
  induction l with
  | nil => intro best; simp [Manager.getNextPendingAux]
  | cons a ts ih =>
    intro best
    by_cases hp : a.status = Status.pending
    · cases best with
      | none => simp [Manager.getNextPendingAux, hp, ih]
      | some b =>
        by_cases hlt : b.priority < a.priority <;>
          simp [Manager.getNextPendingAux, hp, hlt, ih]
    · simp [Manager.getNextPendingAux, hp, ih]

theorem getNextPendingAux_some_spec (l : List Task) :
    ∀ b t : Task,
      Manager.getNextPendingAux (some b) l = some t →
      (t = b ∧ ∀ u ∈ l, u.status = Status.pending → u.priority ≤ b.priority)
      ∨ (t.status = Status.pending ∧ b.priority < t.priority
         ∧ (∀ u ∈ l, u.status = Status.pending → u.priority ≤ t.priority)
         ∧ ∃ i : Nat, l[i]? = some t
             ∧ ∀ j, j < i → ∀ u : Task, l[j]? = some u →
                 u.status = Status.pending → u.priority < t.priority) := by
  induction l with
  | nil =>
    intro b t h
    simp only [Manager.getNextPendingAux, Option.some.injEq] at h
    exact Or.inl ⟨h.symm, by simp⟩
  | cons a ts ih =>
    intro b t h
    by_cases hp : a.status = Status.pending
    · by_cases hlt : b.priority < a.priority
      · have h' : Manager.getNextPendingAux (some a) ts = some t := by
          simpa [Manager.getNextPendingAux, hp, hlt] using h
        rcases ih a t h' with ⟨heq, hbound⟩ | ⟨hpend, hgt, hbound, i, hi, hfirst⟩
        · subst heq
          refine Or.inr ⟨hp, hlt, ?_, 0, List.getElem?_cons_zero, ?_⟩
          · intro u hu hup
            rcases List.mem_cons.mp hu with rfl | hu
            · exact le_refl _
            · exact hbound u hu hup
          · intro j hj
            omega
        · refine Or.inr ⟨hpend, lt_trans hlt hgt, ?_, i + 1, ?_, ?_⟩
          · intro u hu hup
            rcases List.mem_cons.mp hu with rfl | hu
            · exact le_of_lt hgt
            · exact hbound u hu hup
          · simpa [List.getElem?_cons_succ] using hi
          · intro j hj u hu hup
            cases j with
            | zero =>
              rw [List.getElem?_cons_zero] at hu
              injection hu with hu
              subst hu
              exact hgt
            | succ k =>
              rw [List.getElem?_cons_succ] at hu
              exact hfirst k (Nat.lt_of_succ_lt_succ hj) u hu hup
      · have h' : Manager.getNextPendingAux (some b) ts = some t := by
          simpa [Manager.getNextPendingAux, hp, hlt] using h
        have hab : a.priority ≤ b.priority := not_lt.mp hlt
        rcases ih b t h' with ⟨heq, hbound⟩ | ⟨hpend, hgt, hbound, i, hi, hfirst⟩
        · refine Or.inl ⟨heq, ?_⟩
          intro u hu hup
          rcases List.mem_cons.mp hu with rfl | hu
          · exact hab
          · exact hbound u hu hup
        · refine Or.inr ⟨hpend, hgt, ?_, i + 1, ?_, ?_⟩
          · intro u hu hup
            rcases List.mem_cons.mp hu with rfl | hu
            · exact le_of_lt (lt_of_le_of_lt hab hgt)
            · exact hbound u hu hup
          · simpa [List.getElem?_cons_succ] using hi
          · intro j hj u hu hup
            cases j with
            | zero =>
              rw [List.getElem?_cons_zero] at hu
              injection hu with hu
              subst hu
              exact lt_of_le_of_lt hab hgt
            | succ k =>
              rw [List.getElem?_cons_succ] at hu
              exact hfirst k (Nat.lt_of_succ_lt_succ hj) u hu hup
    · have h' : Manager.getNextPendingAux (some b) ts = some t := by
        simpa [Manager.getNextPendingAux, hp] using h
      rcases ih b t h' with ⟨heq, hbound⟩ | ⟨hpend, hgt, hbound, i, hi, hfirst⟩
      · refine Or.inl ⟨heq, ?_⟩
        intro u hu hup
        rcases List.mem_cons.mp hu with rfl | hu
        · exact absurd hup hp
        · exact hbound u hu hup
      · refine Or.inr ⟨hpend, hgt, ?_, i + 1, ?_, ?_⟩
        · intro u hu hup
          rcases List.mem_cons.mp hu with rfl | hu
          · exact absurd hup hp
          · exact hbound u hu hup
        · simpa [List.getElem?_cons_succ] using hi
        · intro j hj u hu hup
          cases j with
          | zero =>
            rw [List.getElem?_cons_zero] at hu
            injection hu with hu
            subst hu
            exact absurd hup hp
          | succ k =>
            rw [List.getElem?_cons_succ] at hu
            exact hfirst k (Nat.lt_of_succ_lt_succ hj) u hu hup

theorem getNextPending_some_spec (l : List Task) :
    ∀ t : Task, Manager.GetNextPending l = some t →
      t.status = Status.pending
      ∧ (∀ u ∈ l, u.status = Status.pending → u.priority ≤ t.priority)
      ∧ ∃ i : Nat, l[i]? = some t
          ∧ ∀ j, j < i → ∀ u : Task, l[j]? = some u →
              u.status = Status.pending → u.priority < t.priority := by
  induction l with
  | nil => intro t h; simp [Manager.GetNextPending, Manager.getNextPendingAux] at h
  | cons a ts ih =>
    intro t h
    by_cases hp : a.status = Status.pending
    · have h' : Manager.getNextPendingAux (some a) ts = some t := by
        simpa [Manager.GetNextPending, Manager.getNextPendingAux, hp] using h
      rcases getNextPendingAux_some_spec ts a t h' with
        ⟨heq, hbound⟩ | ⟨hpend, hgt, hbound, i, hi, hfirst⟩
      · subst heq
        refine ⟨hp, ?_, 0, List.getElem?_cons_zero, ?_⟩
        · intro u hu hup
          rcases List.mem_cons.mp hu with rfl | hu
          · exact le_refl _
          · exact hbound u hu hup
        · intro j hj
          omega
      · refine ⟨hpend, ?_, i + 1, ?_, ?_⟩
        · intro u hu hup
          rcases List.mem_cons.mp hu with rfl | hu
          · exact le_of_lt hgt
          · exact hbound u hu hup
        · simpa [List.getElem?_cons_succ] using hi
        · intro j hj u hu hup
          cases j with
          | zero =>
            rw [List.getElem?_cons_zero] at hu
            injection hu with hu
            subst hu
            exact hgt
          | succ k =>
            rw [List.getElem?_cons_succ] at hu
            exact hfirst k (Nat.lt_of_succ_lt_succ hj) u hu hup
    · have h' : Manager.GetNextPending ts = some t := by
        simpa [Manager.GetNextPending, Manager.getNextPendingAux, hp] using h
      obtain ⟨hpend, hbound, i, hi, hfirst⟩ := ih t h'
      refine ⟨hpend, ?_, i + 1, ?_, ?_⟩
      · intro u hu hup
        rcases List.mem_cons.mp hu with rfl | hu
        · exact absurd hup hp
        · exact hbound u hu hup
      · simpa [List.getElem?_cons_succ] using hi
      · intro j hj u hu hup
        cases j with
        | zero =>
          rw [List.getElem?_cons_zero] at hu
          injection hu with hu
          subst hu
          exact absurd hup hp
        | succ k =>
          rw [List.getElem?_cons_succ] at hu
          exact hfirst k (Nat.lt_of_succ_lt_succ hj) u hu hup

/-- C3: `GetNextPending` returns none exactly when no stored task is
pending; when it returns a task, that task is pending, its priority is
maximal among the pending tasks, and it is the first stored task attaining
that maximum (every strictly earlier pending task has strictly smaller
priority). The operation performs no save, so the stored list is
untouched. -/
theorem claim_C3 (l : List Task) :
    (Manager.GetNextPending l = none ↔ ∀ t ∈ l, ¬ t.status = Status.pending)
    ∧ (∀ t : Task, Manager.GetNextPending l = some t →
        t.status = Status.pending
        ∧ (∀ u ∈ l, u.status = Status.pending → u.priority ≤ t.priority)
        ∧ ∃ i : Nat, l[i]? = some t
            ∧ ∀ j, j < i → ∀ u : Task, l[j]? = some u →
                u.status = Status.pending → u.priority < t.priority) := by
  constructor
  · have h := getNextPendingAux_none_iff l none
    simpa [Manager.GetNextPending] using h
  · exact getNextPending_some_spec l

theorem claim_C3_witness :
    Manager.GetNextPending [taskA, taskP5, taskP5b] = some taskP5
    ∧ taskP5.status = Status.pending
    ∧ taskP5b.priority ≤ taskP5.priority := by
  have h : Manager.GetNextPending [taskA, taskP5, taskP5b] = some taskP5 := rfl
  refine ⟨h, ((claim_C3 [taskA, taskP5, taskP5b]).2 taskP5 h).1, ?_⟩
  exact ((claim_C3 [taskA, taskP5, taskP5b]).2 taskP5 h).2.1 taskP5b (by decide) rfl

theorem claimTask_ok_struct (now : Nat) (taskID : String) (w : Int) :
    ∀ l l' : List Task, Manager.ClaimTask now taskID w l = Except.ok l' →
      ∃ i, ∃ h : i < l.length,
        (l.get ⟨i, h⟩).id = taskID ∧ (l.get ⟨i, h⟩).status = Status.pending ∧
        (∀ j, j < i → ∀ u : Task, l[j]? = some u → u.id ≠ taskID) ∧
        l' = l.set i ((l.get ⟨i, h⟩).MarkInProgress w now) := by
  intro l
  induction l with
  | nil => intro l' h; simp [Manager.ClaimTask] at h
  | cons a ts ih =>
    intro l' h
    by_cases ha : a.id = taskID
    · by_cases hp : a.status = Status.pending
      · refine ⟨0, Nat.succ_pos ts.length, ha, hp, ?_, ?_⟩
        · intro j hj
          omega
        · simp only [Manager.ClaimTask, ha, hp, if_pos] at h
          injection h with h
          simp [← h, List.set]
      · simp [Manager.ClaimTask, ha, hp] at h
    · simp only [Manager.ClaimTask, ha, if_neg, not_false_iff] at h
      cases hts : Manager.ClaimTask now taskID w ts with
      | ok ts' =>
        rw [hts] at h
        injection h with h
        obtain ⟨i, hi, hid, hpend, hfirst, hset⟩ := ih ts' hts
        refine ⟨i + 1, Nat.succ_lt_succ hi, hid, hpend, ?_, ?_⟩
        · intro j hj u hu
          cases j with
          | zero =>
            rw [List.getElem?_cons_zero] at hu
            injection hu with hu
            subst hu
            exact ha
          | succ k =>
            rw [List.getElem?_cons_succ] at hu
            exact hfirst k (Nat.lt_of_succ_lt_succ hj) u hu
        · simp [← h, hset, List.set]
      | error e =>
        rw [hts] at h
        cases h

theorem claimTask_error_of_no_pending (now : Nat) (taskID : String) (w : Int) :
    ∀ l : List Task, (∀ t ∈ l, t.id = taskID → ¬ t.status = Status.pending) →
      ∃ e, Manager.ClaimTask now taskID w l = Except.error e := by
  intro l
  induction l with
  | nil => intro _; exact ⟨"task not found: " ++ taskID, rfl⟩
  | cons a ts ih =>
    intro h
    by_cases ha : a.id = taskID
    · have hp : ¬ a.status = Status.pending := h a (List.mem_cons_self a ts) ha
      exact ⟨"task " ++ taskID ++ " is no longer pending",
        by simp [Manager.ClaimTask, ha, hp]⟩
    · obtain ⟨e, he⟩ := ih (fun t ht => h t (List.mem_cons_of_mem a ht))
      exact ⟨e, by simp [Manager.ClaimTask, ha, he]⟩

theorem claimTask_ok_of_pending (now : Nat) (taskID : String) (w : Int) :
    ∀ l : List Task, (l.map Task.id).Nodup →
      (∃ t ∈ l, t.id = taskID ∧ t.status = Status.pending) →
      ∃ l', Manager.ClaimTask now taskID w l = Except.ok l' := by
  intro l
  induction l with
  | nil => intro _ h; simp at h
  | cons a ts ih =>
    intro hnodup h
    obtain ⟨hnotin, hnd⟩ :
        (∀ x ∈ ts, ¬ Task.id x = a.id) ∧ (List.map Task.id ts).Nodup := by
      simpa using hnodup
    obtain ⟨t, ht, hid, hpend⟩ := h
    by_cases ha : a.id = taskID
    · have hap : a.status = Status.pending := by
        rcases List.mem_cons.mp ht with rfl | htts
        · exact hpend
        · exact absurd (hid.trans ha.symm) (hnotin t htts)
      exact ⟨a.MarkInProgress w now :: ts, by simp [Manager.ClaimTask, ha, hap]⟩
    · have htts : t ∈ ts := by
        rcases List.mem_cons.mp ht with rfl | htts
        · exact absurd hid ha
        · exact htts
      obtain ⟨ts', hts⟩ := ih hnd ⟨t, htts, hid, hpend⟩
      exact ⟨a :: ts', by simp [Manager.ClaimTask, ha, hts]⟩

theorem claimTask_no_pending_after (now : Nat) (taskID : String) (w : Int)
    (l l' : List Task) (hnodup : (l.map Task.id).Nodup)
    (h : Manager.ClaimTask now taskID w l = Except.ok l') :
    ∀ t ∈ l', t.id = taskID → ¬ t.status = Status.pending := by
  obtain ⟨i, hi, hid, hpend, hfirst, hset⟩ := claimTask_ok_struct now taskID w l l' h
  subst hset
  intro t ht htid hts
  obtain ⟨k, hk, hget⟩ := List.mem_iff_getElem.mp ht
  have hklen : k < l.length := by simpa using hk
  by_cases hik : i = k
  · subst hik
    rw [List.getElem_set_self hk] at hget
    rw [← hget] at hts
    simp [Task.MarkInProgress] at hts
  · rw [List.getElem_set_ne hik hk] at hget
    have hkid : (l.get ⟨k, hklen⟩).id = taskID := by
      rw [show l.get ⟨k, hklen⟩ = l[k] from rfl, hget]
      exact htid
    have hmapnd : (l.map Task.id).Nodup := hnodup
    have hmi : i < (l.map Task.id).length := by simpa using hi
    have hmk : k < (l.map Task.id).length := by simpa using hklen
    have heq : (l.map Task.id)[i] = (l.map Task.id)[k] := by
      rw [List.getElem_map, List.getElem_map]
      have e1 : l[i] = l.get ⟨i, hi⟩ := rfl
      have e2 : l[k] = l.get ⟨k, hklen⟩ := rfl
      rw [e1, e2, hid, hkid]
    exact hik ((List.Nodup.getElem_inj_iff hmapnd).mp heq)

theorem claimSeq_all_fail (taskID : String) :
    ∀ (calls : List (Nat × Int)) (l : List Task),
      (∀ t ∈ l, t.id = taskID → ¬ t.status = Status.pending) →
      Manager.claimSeq taskID calls l = (l, List.replicate calls.length false) := by
  intro calls
  induction calls with
  | nil => intro l _; rfl
  | cons c rest ih =>
    intro l h
    obtain ⟨e, he⟩ := claimTask_error_of_no_pending c.1 taskID c.2 l h
    have hrest := ih l h
    simp [Manager.claimSeq, he, hrest, List.replicate]

/-- C1: `ClaimTask` succeeds exactly when a stored task has the given id
and is pending (given the registry invariant that stored ids are unique);
on success that task becomes in_progress with worker_id and started_at
stamped and every other task unchanged, and every later claim on the same
task fails; on failure an error is returned and the stored list is
unchanged; in any sequence of claims on the same pending task exactly the
first succeeds. -/
theorem claim_C1 (now : Nat) (w : Int) (taskID : String) (l : List Task)
    (hnodup : (l.map Task.id).Nodup) :
    ((∃ t ∈ l, t.id = taskID ∧ t.status = Status.pending) ↔
      ∃ l', Manager.ClaimTask now taskID w l = Except.ok l')
    ∧ (∀ l' : List Task, Manager.ClaimTask now taskID w l = Except.ok l' →
        (∃ i, ∃ h : i < l.length,
          (l.get ⟨i, h⟩).id = taskID ∧ (l.get ⟨i, h⟩).status = Status.pending ∧
          l' = l.set i
            { l.get ⟨i, h⟩ with
                status := Status.in_progress, workerID := w,
                startedAt := now, updatedAt := now })
        ∧ ∀ (now' : Nat) (w' : Int),
            ∃ e, Manager.ClaimTask now' taskID w' l' = Except.error e)
    ∧ (∀ e, Manager.ClaimTask now taskID w l = Except.error e →
        Manager.ClaimTaskStored now taskID w l = l)
    ∧ (∀ calls : List (Nat × Int), calls ≠ [] →
        (∃ t ∈ l, t.id = taskID ∧ t.status = Status.pending) →
        (Manager.claimSeq taskID calls l).2 =
          true :: List.replicate (calls.length - 1) false) := by
  refine ⟨⟨fun h => claimTask_ok_of_pending now taskID w l hnodup h, ?_⟩, ?_, ?_, ?_⟩
  · rintro ⟨l', hl'⟩
    obtain ⟨i, hi, hid, hpend, _, _⟩ := claimTask_ok_struct now taskID w l l' hl'
    exact ⟨l.get ⟨i, hi⟩, List.get_mem l i hi, hid, hpend⟩
  · intro l' hl'
    constructor
    · obtain ⟨i, hi, hid, hpend, _, hset⟩ := claimTask_ok_struct now taskID w l l' hl'
      exact ⟨i, hi, hid, hpend, hset⟩
    · intro now' w'
      exact claimTask_error_of_no_pending now' taskID w' l'
        (claimTask_no_pending_after now taskID w l l' hnodup hl')
  · intro e he
    simp [Manager.ClaimTaskStored, he]
  · intro calls hne hex
    cases calls with
    | nil => exact absurd rfl hne
    | cons c rest =>
      obtain ⟨l', hl'⟩ := claimTask_ok_of_pending c.1 taskID c.2 l hnodup hex
      have hafter := claimTask_no_pending_after c.1 taskID c.2 l l' hnodup hl'
      have hrest := claimSeq_all_fail taskID rest l' hafter
      simp [Manager.claimSeq, hl', hrest]

theorem claim_C1_witness :
    ([taskA].map Task.id).Nodup
    ∧ (Manager.claimSeq "a" [(5, 3), (6, 4)] [taskA]).2 = [true, false] := by
  refine ⟨by decide, ?_⟩
  have h := (claim_C1 5 3 "a" [taskA] (by decide)).2.2.2 [(5, 3), (6, 4)]
    (by simp) (by decide)
  simpa using h

theorem activeStamped_claim (now : Nat) (taskID : String) (w : Int)
    (l l' : List Task) (hnow : now ≠ 0) (hinv : ActiveStamped l)
    (h : Manager.ClaimTask now taskID w l = Except.ok l') : ActiveStamped l' := by
  obtain ⟨i, hi, _, _, _, hset⟩ := claimTask_ok_struct now taskID w l l' h
  subst hset
  intro t ht hact
  rcases List.mem_or_eq_of_mem_set ht with htl | rfl
  · exact hinv t htl hact
  · simpa [Task.MarkInProgress] using hnow

theorem activeStamped_updateStatus (now : Nat) (taskID reason : String) (st : Status)
    (l l' : List Task)
    (hst : st = Status.pending ∨ st = Status.completed ∨ st = Status.failed)
    (hinv : ActiveStamped l)
    (h : Manager.UpdateStatus now taskID st reason l = Except.ok l') :
    ActiveStamped l' := by
  obtain ⟨i, hi, _, hset⟩ := updateStatus_ok_struct now taskID st reason l l' h
  subst hset
  intro t ht hact
  rcases List.mem_or_eq_of_mem_set ht with htl | rfl
  · exact hinv t htl hact
  · exfalso
    rcases hst with rfl | rfl | rfl <;> simp [Status.IsActive] at hact

theorem activeStamped_recover (now : Nat) (l : List Task) :
    ActiveStamped (Manager.RecoverInProgress now l).1 := by
  intro t ht hact
  simp [recover_inactive now l t ht] at hact

theorem activeStamped_step {a b : List Task} (hinv : ActiveStamped a)
    (h : OrchStep a b) : ActiveStamped b := by
  cases h with
  | claimDispatch now taskID _ _ hnow hc =>
    exact activeStamped_claim now taskID 0 a b hnow hinv hc
  | updateStatusOp now taskID reason st _ _ hst hu =>
    exact activeStamped_updateStatus now taskID reason st a b hst hinv hu
  | recoverOp now =>
    exact activeStamped_recover now a

/-- C7 counterexample: from the all-pending registry `[taskA]`, a single
dispatcher claim step — the orchestrator always claims with worker id 0 —
reaches a registry state whose only task is in_progress with
worker_id = 0, contradicting the claimed invariant that every active task
has a non-zero worker_id. -/
theorem claim_C7_cex :
    OrchReach [taskA] [taskA.MarkInProgress 0 5]
    ∧ taskA.MarkInProgress 0 5 ∈ [taskA.MarkInProgress 0 5]
    ∧ (taskA.MarkInProgress 0 5).status.IsActive = true
    ∧ (taskA.MarkInProgress 0 5).workerID = 0 := by
  refine ⟨?_, by simp, rfl, rfl⟩
  exact OrchReach.tail (OrchReach.refl _)
    (OrchStep.claimDispatch 5 "a" [taskA] [taskA.MarkInProgress 0 5] (by decide) rfl)

/-- C7 (amended): in every registry state reachable through the
orchestrator's operations (dispatcher claim, status updates, recovery)
from a state in which every active task has a set started_at, every task
whose status is in_progress or reviewing has a set (non-zero) started_at;
the non-zero worker_id part of the original claim does not hold because
the dispatcher claims with worker id 0. -/
theorem claim_C7 (l₀ l : List Task) (h₀ : ActiveStamped l₀)
    (hr : OrchReach l₀ l) : ActiveStamped l := by
  induction hr with
  | refl => exact h₀
  | tail _ hstep ih => exact activeStamped_step ih hstep

theorem claim_C7_witness :
    ActiveStamped [taskA] ∧ ActiveStamped [taskA.MarkInProgress 0 5] :=
  ⟨by decide,
   claim_C7 [taskA] [taskA.MarkInProgress 0 5] (by decide)
     (OrchReach.tail (OrchReach.refl _)
       (OrchStep.claimDispatch 5 "a" [taskA] [taskA.MarkInProgress 0 5]
         (by decide) rfl))⟩

end Hive
